import Mathlib

/-!
Verification of the react-slots library (src/src/withSlots.tsx, legacy
multi-argument factory, and src/unnamed/part_000, builder-style factory).

The runtime algorithm is a single synchronous pass: initialize every
declared slot (empty list if `multiple`, else the truthy default content
wrapped in a fragment, else `null`), walk the children classifying each
valid element into the first slot whose identity token equals the child
type (or into `nonSlotChildren`), validate required slots, and invoke the
caller's render function once with the merged props.

React nodes are modelled by an inductive `RNode`; component identity
tokens by `Token` (a user-supplied component reference, or the default
wrapper closure the builder generates per slot name, which is distinct
from every user token and from every other slot's wrapper).
-/

namespace ReactSlots

/-- A component identity token: either a user-supplied component reference
or the default wrapper closure generated by the builder for a slot name. -/
inductive Token : Type where
  | user (n : Nat)
  | defaultWrapper (slotName : String)
deriving DecidableEq, Repr

/-- A React node: a valid element with a component-type token, a fragment
wrapping one node (the `<>{...}</>` JSX form used for default content and
for the component's return value), or a non-element node (text, null,
boolean, number). `key` distinguishes otherwise identical elements. -/
inductive RNode : Type where
  | elem (ty : Token) (key : Nat)
  | frag (content : RNode)
  | text (s : String)
  | nullNode
  | boolNode (b : Bool)
  | numNode (n : Int)
deriving DecidableEq, Repr

/-- JavaScript truthiness of a React node, as used by the source's
`config.defaultContent ? ... : null` check: null, false, 0 and the empty
string are falsy; elements and fragments are objects, hence truthy. -/
def truthy : RNode → Bool
  | .elem _ _ => true
  | .frag _ => true
  | .text s => !(s == "")
  | .nullNode => false
  | .boolNode b => b
  | .numNode n => !(n == 0)

/-- Truthiness of an optional node (`undefined` is falsy). -/
def optTruthy : Option RNode → Bool
  | none => false
  | some n => truthy n

/-- React's `isValidElement`: true exactly for elements and fragments. -/
def isValidElement : RNode → Bool
  | .elem _ _ => true
  | .frag _ => true
  | _ => false

/-- The `child.type` used for slot matching. Fragments have the reserved
Fragment symbol as their type, which is never a registered slot token, so
they yield `none` here; non-elements are never inspected for a type. -/
def childType : RNode → Option Token
  | .elem ty _ => some ty
  | _ => none

/-- Per-slot configuration: `isRequired`, `multiple`, `defaultContent`
(source `SlotConfig`, with the optional booleans defaulted to false as JS
does at every use site). -/
structure SlotConfig : Type where
  isRequired : Bool := false
  multiple : Bool := false
  defaultContent : Option RNode := none
deriving DecidableEq, Repr

/-- The builder variant's combined per-slot configuration, which may also
carry the slot component (source `SlotConfig` in src/src/types.ts). -/
structure BuilderSlotConfig : Type where
  component : Option Token := none
  isRequired : Bool := false
  multiple : Bool := false
  defaultContent : Option RNode := none
deriving DecidableEq, Repr

/-- A resolved slot registry: for each slot, its name, its identity token
and its configuration, in declaration order (JS object key order). -/
abbrev Registry := List (String × Token × SlotConfig)

/-- STEP 1 of the builder (part_000 lines 36-45): resolve each slot's
component, falling back to the generated default wrapper for the slot. -/
def builderRegistry (slotsConfig : List (String × BuilderSlotConfig)) : Registry :=
  slotsConfig.map fun p =>
    (p.1, p.2.component.getD (Token.defaultWrapper p.1),
     ⟨p.2.isRequired, p.2.multiple, p.2.defaultContent⟩)

/-- The legacy variant's registry (withSlots.tsx lines 32-33): the `slots`
map supplies name and token; `slotConfig[slotKey] || {}` supplies the
configuration at every use site. -/
def legacyRegistry (slots : List (String × Token))
    (slotConfig : List (String × SlotConfig)) : Registry :=
  slots.map fun p => (p.1, p.2, (slotConfig.lookup p.1).getD {})

/-- The value stored for one slot: a single element-or-null, or an ordered
list when the slot allows multiple instances. -/
inductive SlotValue : Type where
  | single (v : Option RNode)
  | multi (l : List RNode)
deriving DecidableEq, Repr

/-- Initial content of a singular slot: the truthy default content wrapped
in a fragment (`<>{config.defaultContent}</>`), else null. -/
def defaultInit (cfg : SlotConfig) : Option RNode :=
  match cfg.defaultContent with
  | some d => if truthy d then some (.frag d) else none
  | none => none

/-- Initial value of a slot (part_000 lines 68-79, withSlots.tsx 59-68):
an empty array if `multiple`, else the truthy default content wrapped in a
fragment, else null. -/
def initialSlotValue (cfg : SlotConfig) : SlotValue :=
  if cfg.multiple then .multi [] else .single (defaultInit cfg)

/-- The `slotElements` object after initialization: one entry per declared
slot, in declaration order. -/
def initSlots (reg : Registry) : List (String × SlotValue) :=
  reg.map fun e => (e.1, initialSlotValue e.2.2)

/-- Read `slotElements[name]`. Initialization guarantees every name the
classifier looks up is present, so the default is unreachable. -/
def getSlot (elems : List (String × SlotValue)) (name : String) : SlotValue :=
  (elems.lookup name).getD (.single none)

/-- Write `slotElements[name] = v` (keys are unique in a JS object, so
replacing every matching entry coincides with replacing the one entry). -/
def setSlot (elems : List (String × SlotValue)) (name : String)
    (v : SlotValue) : List (String × SlotValue) :=
  elems.map fun p => if p.1 = name then (p.1, v) else p

/-- The `slotElements[slotName] !== null` test of the duplicate warning:
a stored element is non-null, and an array is always non-null. -/
def slotNonNull : SlotValue → Bool
  | .single none => false
  | .single (some _) => true
  | .multi _ => true

/-- Push onto a multiple slot's array. The source casts the stored value
to an array; initialization makes the second case unreachable. -/
def pushMulti : SlotValue → RNode → SlotValue
  | .multi l, c => .multi (l ++ [c])
  | v, _ => v

/-- Find the first registry entry whose token equals the child's type
(`Object.entries(slotComponents).find(([_, c]) => c === child.type)`). -/
def findSlot (reg : Registry) (child : RNode) : Option (String × Token × SlotConfig) :=
  reg.find? fun e => childType child == some e.2.1

/-- The nodes stored inside one slot value, for stating membership
properties uniformly over singular and multiple slots. -/
def slotValueElems : SlotValue → List RNode
  | .single none => []
  | .single (some x) => [x]
  | .multi l => l

/-- Mutable state of the classification loop: the slot storage, the
leftover list, and the duplicate-content warnings emitted so far (each
warning recorded by the slot name it reports). -/
structure ClassifyState : Type where
  slotElements : List (String × SlotValue)
  nonSlotChildren : List RNode
  warnings : List String
deriving DecidableEq, Repr

/-- One iteration of `Children.forEach` (part_000 lines 82-119,
withSlots.tsx lines 71-104). `checkDefault` is the single point where the
two variants differ: the builder suppresses the duplicate warning when
default content is configured (`!config.defaultContent`), the legacy
variant does not; `prodMode` is `process.env.NODE_ENV === "production"`. -/
def processChild (checkDefault prodMode : Bool) (reg : Registry)
    (st : ClassifyState) (child : RNode) : ClassifyState :=
  if isValidElement child then
    match findSlot reg child with
    | some (slotName, _, config) =>
      if config.multiple then
        let pushed := pushMulti (getSlot st.slotElements slotName) child
        { st with slotElements := setSlot st.slotElements slotName pushed }
      else
        let warn := !prodMode && slotNonNull (getSlot st.slotElements slotName)
          && (!checkDefault || !(optTruthy config.defaultContent))
        { st with
            slotElements := setSlot st.slotElements slotName (.single (some child)),
            warnings := st.warnings ++ if warn then [slotName] else [] }
    | none => { st with nonSlotChildren := st.nonSlotChildren ++ [child] }
  else st

/-- The full classification pass: initialize all slots, then process the
children in order. -/
def classifyChildren (checkDefault prodMode : Bool) (reg : Registry)
    (children : List RNode) : ClassifyState :=
  children.foldl (processChild checkDefault prodMode reg)
    ⟨initSlots reg, [], []⟩

/-- Where the classifier routes one child: into a named slot, into the
leftover list, or silently dropped (not a valid element). -/
inductive Route : Type where
  | toSlot (s : String)
  | leftover
  | dropped
deriving DecidableEq, Repr

/-- The destination of a child, read off the guard structure of
`processChild`. -/
def routeOf (reg : Registry) (c : RNode) : Route :=
  if isValidElement c then
    match findSlot reg c with
    | some e => .toSlot e.1
    | none => .leftover
  else .dropped

/-- Emptiness test used by the required-slot validator: an empty array for
a multiple slot, `=== null` for a singular one (a value absent from
`slotElements` compares unequal to null). -/
def slotIsEmpty (cfg : SlotConfig) (v : Option SlotValue) : Bool :=
  if cfg.multiple then
    match v with
    | some (.multi l) => l.isEmpty
    | _ => false
  else
    match v with
    | some (.single none) => true
    | _ => false

/-- Builder-variant validator (part_000 lines 122-134): filter the
registry's slot names down to those required and empty, in order. -/
def missingRequiredSlots (reg : Registry)
    (elems : List (String × SlotValue)) : List String :=
  (reg.filter fun e =>
    e.2.2.isRequired && slotIsEmpty e.2.2 (elems.lookup e.1)).map fun e => e.1

/-- Legacy-variant validator (withSlots.tsx lines 107-118): iterates the
keys of the separate `slotConfig` map instead of the slot registry. -/
def missingRequiredSlotsLegacy (slotConfig : List (String × SlotConfig))
    (elems : List (String × SlotValue)) : List String :=
  (slotConfig.filter fun e =>
    e.2.isRequired && slotIsEmpty e.2 (elems.lookup e.1)).map fun e => e.1

/-- The object handed to the caller's render function: the component's own
properties minus `children` (already split off by destructuring), the
slots mapping, and the leftover list. -/
structure RenderProps (P : Type) : Type where
  props : P
  slots : List (String × SlotValue)
  nonSlotChildren : List RNode

/-- Everything one render pass of the produced component yields: its
returned node, the duplicate-content warnings (`console.warn`, by slot
name) and the missing-required diagnostics (`console.error`, each carrying
the full list of missing names it formats into one message). -/
structure RenderOutcome : Type where
  output : RNode
  warnings : List String
  errors : List (List String)
deriving DecidableEq, Repr

/-- One render pass of the builder-variant component (part_000 lines
57-161): classify, validate, merge the render props and return the render
function's result wrapped in the enclosing fragment. The type-safe copy of
`slotElements` (lines 146-151) copies every entry unchanged. -/
def runComponentBuilder (P : Type) (prodMode : Bool)
    (slotsConfig : List (String × BuilderSlotConfig))
    (renderFn : RenderProps P → RNode) (props : P)
    (children : List RNode) : RenderOutcome :=
  let reg := builderRegistry slotsConfig
  let st := classifyChildren true prodMode reg children
  let missing := missingRequiredSlots reg st.slotElements
  { output := .frag (renderFn ⟨props, st.slotElements, st.nonSlotChildren⟩)
    warnings := st.warnings
    errors := if 0 < missing.length ∧ prodMode = false then [missing] else [] }

/-- One render pass of the legacy-variant component (withSlots.tsx lines
51-157): same pipeline, without the builder's default-content suppression
of the duplicate warning, and validating over the `slotConfig` keys. -/
def runComponentLegacy (P : Type) (prodMode : Bool)
    (slots : List (String × Token)) (slotConfig : List (String × SlotConfig))
    (renderFn : RenderProps P → RNode) (props : P)
    (children : List RNode) : RenderOutcome :=
  let reg := legacyRegistry slots slotConfig
  let st := classifyChildren false prodMode reg children
  let missing := missingRequiredSlotsLegacy slotConfig st.slotElements
  { output := .frag (renderFn ⟨props, st.slotElements, st.nonSlotChildren⟩)
    warnings := st.warnings
    errors := if 0 < missing.length ∧ prodMode = false then [missing] else [] }

/-- Number of duplicate-content warnings a singular slot accrues from a
batch of `n` matching children, given the variant flag, the mode, whether
truthy default content is configured, and whether the slot already holds a
non-null value. -/
def warnContrib (checkDefault prodMode def0 filled : Bool) (n : Nat) : Nat :=
  if prodMode || (checkDefault && def0) then 0
  else if filled then n else n - 1

theorem setSlot_cons (p : String × SlotValue) (es : List (String × SlotValue))
    (k : String) (v : SlotValue) :
    setSlot (p :: es) k v = (if p.1 = k then (p.1, v) else p) :: setSlot es k v := rfl

theorem keys_setSlot (elems : List (String × SlotValue)) (k : String) (v : SlotValue) :
    (setSlot elems k v).map Prod.fst = elems.map Prod.fst := by
  induction elems with
  | nil => rfl
  | cons p es ih =>
    rw [setSlot_cons]
    by_cases h : p.1 = k <;> simp [h, ih]

theorem lookup_setSlot_eq (elems : List (String × SlotValue)) (k : String) (v : SlotValue) :
    (setSlot elems k v).lookup k = (elems.lookup k).map fun _ => v := by
  induction elems with
  | nil => rfl
  | cons p es ih =>
    rcases p with ⟨a, b⟩
    rw [setSlot_cons]
    by_cases h : a = k
    · subst h; simp [List.lookup_cons]
    · have hk : (k == a) = false := beq_eq_false_iff_ne.mpr fun hh => h hh.symm
      simp [if_neg h, List.lookup_cons, hk, ih]

theorem lookup_setSlot_ne (elems : List (String × SlotValue)) (k kt : String)
    (v : SlotValue) (h : kt ≠ k) :
    (setSlot elems k v).lookup kt = elems.lookup kt := by
  induction elems with
  | nil => rfl
  | cons p es ih =>
    rcases p with ⟨a, b⟩
    rw [setSlot_cons]
    by_cases ha : a = k
    · subst ha
      have hk : (kt == a) = false := beq_eq_false_iff_ne.mpr h
      simp [List.lookup_cons, hk, ih]
    · by_cases hta : kt = a
      · subst hta; simp [if_neg ha, List.lookup_cons]
      · have hk : (kt == a) = false := beq_eq_false_iff_ne.mpr hta
        simp [if_neg ha, List.lookup_cons, hk, ih]

theorem keys_initSlots (reg : Registry) :
    (initSlots reg).map Prod.fst = reg.map fun e => e.1 := by
  simp [initSlots]

theorem lookup_initSlots (reg : Registry) (e : String × Token × SlotConfig)
    (hnd : (reg.map fun x => x.1).Nodup) (he : e ∈ reg) :
    (initSlots reg).lookup e.1 = some (initialSlotValue e.2.2) := by
  induction reg with
  | nil => cases he
  | cons p es ih =>
    simp only [List.map_cons, List.nodup_cons] at hnd
    rcases List.mem_cons.mp he with h | h
    · subst h; simp [initSlots, List.lookup_cons]
    · have hne : e.1 ≠ p.1 := by
        intro hq
        exact hnd.1 (hq ▸ List.mem_map_of_mem (fun x => x.1) h)
      have hk : (e.1 == p.1) = false := beq_eq_false_iff_ne.mpr hne
      simpa [initSlots, List.lookup_cons, hk] using ih hnd.2 h

theorem reg_name_inj (reg : Registry) (hnd : (reg.map fun x => x.1).Nodup)
    (e f : String × Token × SlotConfig) (he : e ∈ reg) (hf : f ∈ reg)
    (h : e.1 = f.1) : e = f :=
  List.inj_on_of_nodup_map hnd he hf h

theorem routeOf_toSlot_iff (reg : Registry) (c : RNode) (s : String) :
    routeOf reg c = Route.toSlot s ↔
      isValidElement c = true ∧ ∃ e, findSlot reg c = some e ∧ e.1 = s := by
  unfold routeOf
  by_cases hv : isValidElement c
  · cases hf : findSlot reg c with
    | none => simp [hv, hf]
    | some e =>
      simp only [hv, if_true, hf, true_and]
      constructor
      · intro h
        exact ⟨e, rfl, by cases h; rfl⟩
      · rintro ⟨f, hfe, hs⟩
        cases hfe; cases hs; rfl
  · simp [hv]

theorem routeOf_leftover_iff (reg : Registry) (c : RNode) :
    routeOf reg c = Route.leftover ↔
      isValidElement c = true ∧ findSlot reg c = none := by
  unfold routeOf
  by_cases hv : isValidElement c
  · cases hf : findSlot reg c <;> simp [hv, hf]
  · simp [hv]

theorem slotNonNull_single (v : Option RNode) :
    slotNonNull (.single v) = v.isSome := by
  cases v <;> rfl

theorem findSlot_eq_of_route (reg : Registry)
    (hnd : (reg.map fun x => x.1).Nodup) (e : String × Token × SlotConfig)
    (he : e ∈ reg) (c : RNode) (h : routeOf reg c = Route.toSlot e.1) :
    findSlot reg c = some e := by
  rcases (routeOf_toSlot_iff reg c e.1).mp h with ⟨hv, f, hf, hs⟩
  have hfm : f ∈ reg := List.mem_of_find?_eq_some hf
  have hef : f = e := reg_name_inj reg hnd f e hfm he hs
  exact hef ▸ hf

theorem route_valid (reg : Registry) (c : RNode) (s : String)
    (h : routeOf reg c = Route.toSlot s) : isValidElement c = true :=
  ((routeOf_toSlot_iff reg c s).mp h).1

theorem processChild_not_element (cd pm : Bool) (reg : Registry)
    (st : ClassifyState) (c : RNode) (hv : isValidElement c = false) :
    processChild cd pm reg st c = st := by
  simp [processChild, hv]

theorem processChild_nonSlot (cd pm : Bool) (reg : Registry)
    (st : ClassifyState) (c : RNode) :
    (processChild cd pm reg st c).nonSlotChildren =
      st.nonSlotChildren ++ if routeOf reg c = Route.leftover then [c] else [] := by
  unfold processChild routeOf
  by_cases hv : isValidElement c
  · cases hf : findSlot reg c with
    | none => simp [hv, hf]
    | some e =>
      rcases e with ⟨s, t, cfg⟩
      by_cases hm : cfg.multiple <;> simp [hv, hf, hm]
  · simp [hv]

theorem processChild_keys (cd pm : Bool) (reg : Registry)
    (st : ClassifyState) (c : RNode) :
    (processChild cd pm reg st c).slotElements.map Prod.fst =
      st.slotElements.map Prod.fst := by
  unfold processChild
  by_cases hv : isValidElement c
  · cases hf : findSlot reg c with
    | none => simp [hv, hf]
    | some e =>
      rcases e with ⟨s, t, cfg⟩
      by_cases hm : cfg.multiple <;> simp [hv, hf, hm, keys_setSlot]
  · simp [hv]

theorem processChild_lookup_ne (cd pm : Bool) (reg : Registry)
    (st : ClassifyState) (c : RNode) (s : String)
    (h : routeOf reg c ≠ Route.toSlot s) :
    (processChild cd pm reg st c).slotElements.lookup s =
      st.slotElements.lookup s := by
  unfold processChild
  by_cases hv : isValidElement c
  · cases hf : findSlot reg c with
    | none => simp [hv, hf]
    | some e =>
      rcases e with ⟨s1, t, cfg⟩
      have hs : s ≠ s1 := by
        intro hq
        exact h ((routeOf_toSlot_iff reg c s).mpr ⟨hv, ⟨(s1, t, cfg), hf, hq.symm⟩⟩)
      by_cases hm : cfg.multiple <;>
        simp [hv, hf, hm, lookup_setSlot_ne _ _ _ _ hs]
  · simp [hv]

theorem processChild_count_ne (cd pm : Bool) (reg : Registry)
    (st : ClassifyState) (c : RNode) (s : String)
    (h : routeOf reg c ≠ Route.toSlot s) :
    ((processChild cd pm reg st c).warnings).count s = st.warnings.count s := by
  unfold processChild
  by_cases hv : isValidElement c
  · cases hf : findSlot reg c with
    | none => simp [hv, hf]
    | some e =>
      rcases e with ⟨s1, t, cfg⟩
      have hs : s1 ≠ s := by
        intro hq
        exact h ((routeOf_toSlot_iff reg c s).mpr ⟨hv, ⟨(s1, t, cfg), hf, hq⟩⟩)
      by_cases hm : cfg.multiple
      · simp [hv, hf, hm]
      · simp only [hv, if_true, hf, hm, Bool.false_eq_true, if_false]
        rw [List.count_append]
        have : List.count s (if (!pm && slotNonNull (getSlot st.slotElements s1)
            && (!cd || !optTruthy cfg.defaultContent)) = true
            then [s1] else []) = 0 := by
          split <;> simp [List.count_cons, beq_eq_false_iff_ne.mpr hs]
        omega
  · simp [hv]

theorem processChild_multi (cd pm : Bool) (reg : Registry)
    (hnd : (reg.map fun x => x.1).Nodup) (s : String) (t : Token)
    (cfg : SlotConfig) (he : (s, t, cfg) ∈ reg) (hm : cfg.multiple = true)
    (st : ClassifyState) (c : RNode) (hr : routeOf reg c = Route.toSlot s)
    (l : List RNode) (hl : st.slotElements.lookup s = some (.multi l)) :
    (processChild cd pm reg st c).slotElements.lookup s =
        some (.multi (l ++ [c])) ∧
      (processChild cd pm reg st c).warnings = st.warnings := by
  have hv : isValidElement c = true := route_valid reg c s hr
  have hf : findSlot reg c = some (s, t, cfg) :=
    findSlot_eq_of_route reg hnd (s, t, cfg) he c hr
  unfold processChild
  simp [hv, hf, hm, getSlot, hl, pushMulti, lookup_setSlot_eq]

theorem processChild_single (cd pm : Bool) (reg : Registry)
    (hnd : (reg.map fun x => x.1).Nodup) (s : String) (t : Token)
    (cfg : SlotConfig) (he : (s, t, cfg) ∈ reg) (hm : cfg.multiple = false)
    (st : ClassifyState) (c : RNode) (hr : routeOf reg c = Route.toSlot s)
    (v : Option RNode) (hl : st.slotElements.lookup s = some (.single v)) :
    (processChild cd pm reg st c).slotElements.lookup s =
        some (.single (some c)) ∧
      (processChild cd pm reg st c).warnings = st.warnings ++
        (if (!pm && v.isSome && (!cd || !optTruthy cfg.defaultContent)) = true
         then [s] else []) := by
  have hv : isValidElement c = true := route_valid reg c s hr
  have hf : findSlot reg c = some (s, t, cfg) :=
    findSlot_eq_of_route reg hnd (s, t, cfg) he c hr
  unfold processChild
  simp [hv, hf, hm, getSlot, hl, lookup_setSlot_eq, slotNonNull_single]

theorem warnContrib_succ (cd pm def0 filled : Bool) (n : Nat) :
    (if (!pm && filled && (!cd || !def0)) = true then 1 else 0) +
        warnContrib cd pm def0 true n =
      warnContrib cd pm def0 filled (n + 1) := by
  cases cd <;> cases pm <;> cases def0 <;> cases filled <;>
    simp [warnContrib] <;> omega

theorem fold_nonSlot (cd pm : Bool) (reg : Registry) (cs : List RNode) :
    ∀ st : ClassifyState,
      (cs.foldl (processChild cd pm reg) st).nonSlotChildren =
        st.nonSlotChildren ++
          cs.filter fun c => decide (routeOf reg c = Route.leftover) := by
  induction cs with
  | nil => intro st; simp
  | cons c cs ih =>
    intro st
    rw [List.foldl_cons, ih, processChild_nonSlot]
    by_cases h : routeOf reg c = Route.leftover <;>
      simp [h, List.filter_cons]

theorem fold_keys (cd pm : Bool) (reg : Registry) (cs : List RNode) :
    ∀ st : ClassifyState,
      (cs.foldl (processChild cd pm reg) st).slotElements.map Prod.fst =
        st.slotElements.map Prod.fst := by
  induction cs with
  | nil => intro st; simp
  | cons c cs ih =>
    intro st
    rw [List.foldl_cons, ih, processChild_keys]

theorem fold_lookup_multi (cd pm : Bool) (reg : Registry)
    (hnd : (reg.map fun x => x.1).Nodup) (s : String) (t : Token)
    (cfg : SlotConfig) (he : (s, t, cfg) ∈ reg) (hm : cfg.multiple = true)
    (cs : List RNode) :
    ∀ (st : ClassifyState) (l : List RNode),
      st.slotElements.lookup s = some (.multi l) →
        (cs.foldl (processChild cd pm reg) st).slotElements.lookup s =
          some (.multi (l ++
            cs.filter fun c => decide (routeOf reg c = Route.toSlot s))) := by
  induction cs with
  | nil => intro st l hl; simpa using hl
  | cons c cs ih =>
    intro st l hl
    rw [List.foldl_cons]
    by_cases h : routeOf reg c = Route.toSlot s
    · have hstep := processChild_multi cd pm reg hnd s t cfg he hm st c h l hl
      rw [ih _ _ hstep.1]
      simp [List.filter_cons, h]
    · have hpres := processChild_lookup_ne cd pm reg st c s h
      rw [ih _ _ (hpres.trans hl)]
      simp [List.filter_cons, h]

theorem fold_lookup_single (cd pm : Bool) (reg : Registry)
    (hnd : (reg.map fun x => x.1).Nodup) (s : String) (t : Token)
    (cfg : SlotConfig) (he : (s, t, cfg) ∈ reg) (hm : cfg.multiple = false)
    (cs : List RNode) :
    ∀ (st : ClassifyState) (v : Option RNode),
      st.slotElements.lookup s = some (.single v) →
        (cs.foldl (processChild cd pm reg) st).slotElements.lookup s =
          some (.single
            ((cs.filter fun c =>
                decide (routeOf reg c = Route.toSlot s)).foldl
              (fun _ c => some c) v)) := by
  induction cs with
  | nil => intro st v hl; simpa using hl
  | cons c cs ih =>
    intro st v hl
    rw [List.foldl_cons]
    by_cases h : routeOf reg c = Route.toSlot s
    · have hstep := processChild_single cd pm reg hnd s t cfg he hm st c h v hl
      rw [ih _ _ hstep.1]
      simp [List.filter_cons, h]
    · have hpres := processChild_lookup_ne cd pm reg st c s h
      rw [ih _ _ (hpres.trans hl)]
      simp [List.filter_cons, h]

theorem fold_count_warn (cd pm : Bool) (reg : Registry)
    (hnd : (reg.map fun x => x.1).Nodup) (s : String) (t : Token)
    (cfg : SlotConfig) (he : (s, t, cfg) ∈ reg) (hm : cfg.multiple = false)
    (cs : List RNode) :
    ∀ (st : ClassifyState) (v : Option RNode),
      st.slotElements.lookup s = some (.single v) →
        (cs.foldl (processChild cd pm reg) st).warnings.count s =
          st.warnings.count s +
            warnContrib cd pm (optTruthy cfg.defaultContent) v.isSome
              (cs.filter fun c =>
                decide (routeOf reg c = Route.toSlot s)).length := by
  induction cs with
  | nil =>
    intro st v hl
    cases hv : v.isSome <;> simp [warnContrib]
  | cons c cs ih =>
    intro st v hl
    rw [List.foldl_cons]
    by_cases h : routeOf reg c = Route.toSlot s
    · have hstep := processChild_single cd pm reg hnd s t cfg he hm st c h v hl
      rw [ih _ _ hstep.1, hstep.2, List.count_append]
      have hcnt : List.count s
          (if (!pm && v.isSome && (!cd || !optTruthy cfg.defaultContent)) = true
           then [s] else []) =
          if (!pm && v.isSome && (!cd || !optTruthy cfg.defaultContent)) = true
          then 1 else 0 := by
        split <;> simp
      rw [hcnt]
      have hfilter : ((c :: cs).filter fun x =>
          decide (routeOf reg x = Route.toSlot s)) =
          c :: cs.filter fun x => decide (routeOf reg x = Route.toSlot s) := by
        simp [List.filter_cons, h]
      rw [hfilter, List.length_cons]
      simp only [Option.isSome_some]
      have harith := warnContrib_succ cd pm (optTruthy cfg.defaultContent)
        v.isSome
        (cs.filter fun c => decide (routeOf reg c = Route.toSlot s)).length
      omega
    · have hpres := processChild_lookup_ne cd pm reg st c s h
      have hcnt := processChild_count_ne cd pm reg st c s h
      rw [ih _ _ (hpres.trans hl), hcnt]
      simp [List.filter_cons, h]

theorem defaultInit_isSome (cfg : SlotConfig) :
    (defaultInit cfg).isSome = optTruthy cfg.defaultContent := by
  unfold defaultInit optTruthy
  cases hd : cfg.defaultContent with
  | none => rfl
  | some d => cases ht : truthy d <;> simp [ht]

theorem initialSlotValue_multi (cfg : SlotConfig) (hm : cfg.multiple = true) :
    initialSlotValue cfg = .multi [] := by
  simp [initialSlotValue, hm]

theorem initialSlotValue_single (cfg : SlotConfig) (hm : cfg.multiple = false) :
    initialSlotValue cfg = .single (defaultInit cfg) := by
  simp [initialSlotValue, hm]

theorem foldl_override (v : Option RNode) (ms : List RNode) :
    ms.foldl (fun _ c => some c) v = ms.getLast?.elim v some := by
  induction ms generalizing v with
  | nil => rfl
  | cons c cs ih =>
    rw [List.foldl_cons, ih]
    cases cs with
    | nil => rfl
    | cons d ds =>
      rw [List.getLast?_cons_cons]
      cases hg : (d :: ds).getLast? with
      | none =>
        rw [List.getLast?_eq_none_iff] at hg
        cases hg
      | some x => rfl

theorem lookup_mem (elems : List (String × SlotValue)) (k : String)
    (v : SlotValue) (h : elems.lookup k = some v) : (k, v) ∈ elems := by
  induction elems with
  | nil => cases h
  | cons p es ih =>
    rcases p with ⟨a, b⟩
    rw [List.lookup_cons] at h
    cases hbeq : (k == a) with
    | true =>
      rw [hbeq] at h
      simp only [Option.some.injEq] at h
      have hk : k = a := by simpa using hbeq
      subst hk
      subst h
      exact List.mem_cons_self _ _
    | false =>
      rw [hbeq] at h
      exact List.mem_cons_of_mem _ (ih h)

theorem mem_setSlot (elems : List (String × SlotValue)) (k : String)
    (v : SlotValue) (q : String × SlotValue) (hq : q ∈ setSlot elems k v) :
    q.2 = v ∨ q ∈ elems := by
  unfold setSlot at hq
  rcases List.mem_map.mp hq with ⟨p, hp, hpq⟩
  by_cases h : p.1 = k
  · rw [if_pos h] at hpq
    left
    rw [← hpq]
  · rw [if_neg h] at hpq
    right
    rwa [← hpq]

theorem classify_keys (cd pm : Bool) (reg : Registry) (cs : List RNode) :
    (classifyChildren cd pm reg cs).slotElements.map Prod.fst =
      reg.map fun e => e.1 := by
  unfold classifyChildren
  rw [fold_keys]
  exact keys_initSlots reg

theorem classify_nonSlot (cd pm : Bool) (reg : Registry) (cs : List RNode) :
    (classifyChildren cd pm reg cs).nonSlotChildren =
      cs.filter fun c => decide (routeOf reg c = Route.leftover) := by
  unfold classifyChildren
  rw [fold_nonSlot]
  rfl

theorem classify_lookup_multi (cd pm : Bool) (reg : Registry)
    (hnd : (reg.map fun x => x.1).Nodup) (s : String) (t : Token)
    (cfg : SlotConfig) (he : (s, t, cfg) ∈ reg) (hm : cfg.multiple = true)
    (cs : List RNode) :
    (classifyChildren cd pm reg cs).slotElements.lookup s =
      some (.multi
        (cs.filter fun c => decide (routeOf reg c = Route.toSlot s))) := by
  unfold classifyChildren
  have hinit : (initSlots reg).lookup s = some (.multi []) := by
    have h := lookup_initSlots reg (s, t, cfg) hnd he
    rwa [initialSlotValue_multi _ hm] at h
  have h := fold_lookup_multi cd pm reg hnd s t cfg he hm cs
    ⟨initSlots reg, [], []⟩ [] hinit
  simpa using h

theorem classify_lookup_single (cd pm : Bool) (reg : Registry)
    (hnd : (reg.map fun x => x.1).Nodup) (s : String) (t : Token)
    (cfg : SlotConfig) (he : (s, t, cfg) ∈ reg) (hm : cfg.multiple = false)
    (cs : List RNode) :
    (classifyChildren cd pm reg cs).slotElements.lookup s =
      some (.single
        ((cs.filter fun c =>
          decide (routeOf reg c = Route.toSlot s)).getLast?.elim
            (defaultInit cfg) some)) := by
  unfold classifyChildren
  have hinit : (initSlots reg).lookup s = some (.single (defaultInit cfg)) := by
    have h := lookup_initSlots reg (s, t, cfg) hnd he
    rwa [initialSlotValue_single _ hm] at h
  have h := fold_lookup_single cd pm reg hnd s t cfg he hm cs
    ⟨initSlots reg, [], []⟩ (defaultInit cfg) hinit
  rwa [foldl_override] at h

theorem classify_count_warn (cd pm : Bool) (reg : Registry)
    (hnd : (reg.map fun x => x.1).Nodup) (s : String) (t : Token)
    (cfg : SlotConfig) (he : (s, t, cfg) ∈ reg) (hm : cfg.multiple = false)
    (cs : List RNode) :
    (classifyChildren cd pm reg cs).warnings.count s =
      warnContrib cd pm (optTruthy cfg.defaultContent)
        (optTruthy cfg.defaultContent)
        (cs.filter fun c => decide (routeOf reg c = Route.toSlot s)).length := by
  unfold classifyChildren
  have hinit : (initSlots reg).lookup s = some (.single (defaultInit cfg)) := by
    have h := lookup_initSlots reg (s, t, cfg) hnd he
    rwa [initialSlotValue_single _ hm] at h
  have h := fold_count_warn cd pm reg hnd s t cfg he hm cs
    ⟨initSlots reg, [], []⟩ (defaultInit cfg) hinit
  simpa [defaultInit_isSome] using h

theorem init_values_valid (reg : Registry) :
    ∀ p ∈ initSlots reg, ∀ x ∈ slotValueElems p.2, isValidElement x = true := by
  intro p hp x hx
  rcases List.mem_map.mp hp with ⟨e, _, hpe⟩
  have hp2 : p.2 = initialSlotValue e.2.2 := by rw [← hpe]
  rw [hp2] at hx
  unfold initialSlotValue at hx
  by_cases hm : e.2.2.multiple
  · simp [hm, slotValueElems] at hx
  · simp only [hm, Bool.false_eq_true, if_false] at hx
    unfold defaultInit at hx
    cases hd : e.2.2.defaultContent with
    | none => rw [hd] at hx; simp [slotValueElems] at hx
    | some d =>
      rw [hd] at hx
      by_cases ht : truthy d
      · simp only [ht, if_true, slotValueElems, List.mem_singleton] at hx
        rw [hx]
        rfl
      · simp [ht, slotValueElems] at hx

theorem processChild_values_valid (cd pm : Bool) (reg : Registry)
    (st : ClassifyState) (c : RNode)
    (hst : ∀ p ∈ st.slotElements, ∀ x ∈ slotValueElems p.2,
      isValidElement x = true) :
    ∀ p ∈ (processChild cd pm reg st c).slotElements,
      ∀ x ∈ slotValueElems p.2, isValidElement x = true := by
  intro p hp x hx
  unfold processChild at hp
  by_cases hv : isValidElement c
  · rw [if_pos hv] at hp
    cases hf : findSlot reg c with
    | none =>
      rw [hf] at hp
      exact hst p hp x hx
    | some e =>
      rcases e with ⟨s1, t1, cfg1⟩
      rw [hf] at hp
      by_cases hm : cfg1.multiple
      · simp only [hm, if_true] at hp
        rcases mem_setSlot _ _ _ p hp with h2 | h2
        · rw [h2] at hx
          cases hg : st.slotElements.lookup s1 with
          | none => simp [getSlot, hg, pushMulti, slotValueElems] at hx
          | some w =>
            cases w with
            | single v =>
              simp only [getSlot, hg, Option.getD_some, pushMulti] at hx
              exact hst _ (lookup_mem _ _ _ hg) x hx
            | multi l =>
              simp only [getSlot, hg, Option.getD_some, pushMulti,
                slotValueElems] at hx
              rcases List.mem_append.mp hx with h3 | h3
              · exact hst _ (lookup_mem _ _ _ hg) x h3
              · rw [List.mem_singleton.mp h3]
                exact hv
        · exact hst p h2 x hx
      · simp only [hm, Bool.false_eq_true, if_false] at hp
        rcases mem_setSlot _ _ _ p hp with h2 | h2
        · rw [h2] at hx
          simp only [slotValueElems, List.mem_singleton] at hx
          rw [hx]
          exact hv
        · exact hst p h2 x hx
  · rw [if_neg hv] at hp
    exact hst p hp x hx

theorem fold_values_valid (cd pm : Bool) (reg : Registry) (cs : List RNode) :
    ∀ st : ClassifyState,
      (∀ p ∈ st.slotElements, ∀ x ∈ slotValueElems p.2,
        isValidElement x = true) →
      ∀ p ∈ (cs.foldl (processChild cd pm reg) st).slotElements,
        ∀ x ∈ slotValueElems p.2, isValidElement x = true := by
  induction cs with
  | nil => intro st hst; exact hst
  | cons c cs ih =>
    intro st hst
    rw [List.foldl_cons]
    exact ih _ (processChild_values_valid cd pm reg st c hst)

theorem processChild_cd_irrel (cd cd' pm : Bool) (reg : Registry)
    (st st' : ClassifyState) (c : RNode)
    (hse : st.slotElements = st'.slotElements)
    (hns : st.nonSlotChildren = st'.nonSlotChildren) :
    ((processChild cd pm reg st c).slotElements =
        (processChild cd' pm reg st' c).slotElements) ∧
      ((processChild cd pm reg st c).nonSlotChildren =
        (processChild cd' pm reg st' c).nonSlotChildren) := by
  unfold processChild
  by_cases hv : isValidElement c
  · cases hf : findSlot reg c with
    | none => simp [hv, hf, hse, hns]
    | some e =>
      rcases e with ⟨s1, t1, cfg1⟩
      by_cases hm : cfg1.multiple <;> simp [hv, hf, hm, hse, hns]
  · simp [hv, hse, hns]

theorem fold_cd_irrel (cd cd' pm : Bool) (reg : Registry) (cs : List RNode) :
    ∀ st st' : ClassifyState,
      st.slotElements = st'.slotElements →
      st.nonSlotChildren = st'.nonSlotChildren →
      ((cs.foldl (processChild cd pm reg) st).slotElements =
          (cs.foldl (processChild cd' pm reg) st').slotElements) ∧
        ((cs.foldl (processChild cd pm reg) st).nonSlotChildren =
          (cs.foldl (processChild cd' pm reg) st').nonSlotChildren) := by
  induction cs with
  | nil => intro st st' h1 h2; exact ⟨h1, h2⟩
  | cons c cs ih =>
    intro st st' h1 h2
    rw [List.foldl_cons, List.foldl_cons]
    have hstep := processChild_cd_irrel cd cd' pm reg st st' c h1 h2
    exact ih _ _ hstep.1 hstep.2

theorem classify_cd_irrel (cd cd' pm : Bool) (reg : Registry)
    (cs : List RNode) :
    ((classifyChildren cd pm reg cs).slotElements =
        (classifyChildren cd' pm reg cs).slotElements) ∧
      ((classifyChildren cd pm reg cs).nonSlotChildren =
        (classifyChildren cd' pm reg cs).nonSlotChildren) := by
  unfold classifyChildren
  exact fold_cd_irrel cd cd' pm reg cs _ _ rfl rfl

theorem processChild_no_default_eq (pm : Bool) (reg : Registry)
    (hdef : ∀ e ∈ reg, optTruthy e.2.2.defaultContent = false)
    (st : ClassifyState) (c : RNode) :
    processChild true pm reg st c = processChild false pm reg st c := by
  unfold processChild
  by_cases hv : isValidElement c
  · cases hf : findSlot reg c with
    | none => simp [hv, hf]
    | some e =>
      rcases e with ⟨s1, t1, cfg1⟩
      have hmem : (s1, t1, cfg1) ∈ reg := List.mem_of_find?_eq_some hf
      have hd : optTruthy cfg1.defaultContent = false := hdef _ hmem
      by_cases hm : cfg1.multiple <;> simp [hv, hf, hm, hd]
  · simp [hv]

theorem classify_no_default_eq (pm : Bool) (reg : Registry) (cs : List RNode)
    (hdef : ∀ e ∈ reg, optTruthy e.2.2.defaultContent = false) :
    classifyChildren true pm reg cs = classifyChildren false pm reg cs := by
  unfold classifyChildren
  congr 1
  funext st c
  exact processChild_no_default_eq pm reg hdef st c

theorem lookup_map_proj (reg : Registry) (e : String × Token × SlotConfig)
    (hnd : (reg.map fun x => x.1).Nodup) (he : e ∈ reg) :
    (reg.map fun x => (x.1, x.2.2)).lookup e.1 = some e.2.2 := by
  induction reg with
  | nil => cases he
  | cons p es ih =>
    simp only [List.map_cons, List.nodup_cons] at hnd
    rcases List.mem_cons.mp he with h | h
    · subst h; simp [List.lookup_cons]
    · have hne : e.1 ≠ p.1 := by
        intro hq
        exact hnd.1 (hq ▸ List.mem_map_of_mem (fun x => x.1) h)
      have hk : (e.1 == p.1) = false := beq_eq_false_iff_ne.mpr hne
      simpa [List.lookup_cons, hk] using ih hnd.2 h

theorem legacyRegistry_proj (reg : Registry)
    (hnd : (reg.map fun x => x.1).Nodup) :
    legacyRegistry (reg.map fun e => (e.1, e.2.1))
      (reg.map fun e => (e.1, e.2.2)) = reg := by
  unfold legacyRegistry
  rw [List.map_map]
  have h : ∀ e ∈ reg,
      (((fun p => (p.1, p.2,
          ((reg.map fun x => (x.1, x.2.2)).lookup p.1).getD {})) ∘
        fun e => (e.1, e.2.1)) e) = e := by
    intro e he
    simp only [Function.comp_apply]
    rw [lookup_map_proj reg e hnd he]
    rfl
  rw [List.map_congr_left h]
  simp

theorem builderRegistry_explicit (reg : Registry) :
    builderRegistry (reg.map fun e =>
      (e.1, ⟨some e.2.1, e.2.2.isRequired, e.2.2.multiple,
        e.2.2.defaultContent⟩)) = reg := by
  unfold builderRegistry
  rw [List.map_map]
  have h : ∀ e ∈ reg,
      (((fun p => (p.1, p.2.component.getD (Token.defaultWrapper p.1),
          (⟨p.2.isRequired, p.2.multiple, p.2.defaultContent⟩ : SlotConfig))) ∘
        fun e => ((e.1, ⟨some e.2.1, e.2.2.isRequired, e.2.2.multiple,
          e.2.2.defaultContent⟩) :
            String × BuilderSlotConfig)) e) = e := by
    intro e he
    rfl
  rw [List.map_congr_left h]
  simp

theorem missing_legacy_eq (reg : Registry)
    (elems : List (String × SlotValue)) :
    missingRequiredSlotsLegacy (reg.map fun e => (e.1, e.2.2)) elems =
      missingRequiredSlots reg elems := by
  unfold missingRequiredSlotsLegacy missingRequiredSlots
  rw [List.filter_map, List.map_map]
  rfl

/-- C1: For every slot registry (slot names distinct, as JS object keys
are) and every list of children, the classifier's output contains exactly
one entry for every slot name declared in the registry — null for an
unfilled singular slot (with no truthy default), an empty list for an
unfilled multiple slot — so the render function never observes a missing
key in the slots object. -/
theorem slots_object_complete (cd pm : Bool) (reg : Registry)
    (children : List RNode) (hnd : (reg.map fun e => e.1).Nodup) :
    ((classifyChildren cd pm reg children).slotElements.map Prod.fst =
        reg.map fun e => e.1) ∧
    (∀ e ∈ reg,
      ((classifyChildren cd pm reg children).slotElements.map
        Prod.fst).count e.1 = 1) ∧
    (∀ e ∈ reg, (∀ c ∈ children, routeOf reg c ≠ Route.toSlot e.1) →
      (e.2.2.multiple = true →
        (classifyChildren cd pm reg children).slotElements.lookup e.1 =
          some (.multi [])) ∧
      (e.2.2.multiple = false → optTruthy e.2.2.defaultContent = false →
        (classifyChildren cd pm reg children).slotElements.lookup e.1 =
          some (.single none))) := by
  refine ⟨classify_keys cd pm reg children, ?_, ?_⟩
  · intro e he
    rw [classify_keys]
    exact List.count_eq_one_of_mem hnd (List.mem_map_of_mem _ he)
  · rintro ⟨s, t, cfg⟩ he hno
    have hfil : (children.filter fun c =>
        decide (routeOf reg c = Route.toSlot s)) = [] :=
      List.filter_eq_nil_iff.mpr fun c hc => by simpa using hno c hc
    constructor
    · intro hm
      have h := classify_lookup_multi cd pm reg hnd s t cfg he hm children
      rw [hfil] at h
      exact h
    · intro hm hdef
      have h := classify_lookup_single cd pm reg hnd s t cfg he hm children
      rw [hfil] at h
      have hd : defaultInit cfg = none := by
        have hi := defaultInit_isSome cfg
        rw [hdef] at hi
        exact Option.not_isSome_iff_eq_none.mp (by simp [hi])
      simpa [hd] using h

theorem slots_object_complete_witness :
    (classifyChildren true false
        [("Header", Token.user 0, ⟨true, false, none⟩),
         ("Tab", Token.user 1, ⟨false, true, none⟩)]
        [.text "x", .elem (.user 5) 0]).slotElements.map Prod.fst =
      ["Header", "Tab"] := by
  have h := slots_object_complete true false
    [("Header", Token.user 0, ⟨true, false, none⟩),
     ("Tab", Token.user 1, ⟨false, true, none⟩)]
    [.text "x", .elem (.user 5) 0] (by decide)
  exact h.1.trans (by decide)

/-- C2: the leftover list equals the subsequence of the children consisting
of the structured children that matched no slot, in original order; and
every multiple-instance slot's value is the ordered list of exactly the
children routed to it, in original order. -/
theorem classification_stable (cd pm : Bool) (reg : Registry)
    (children : List RNode) (hnd : (reg.map fun e => e.1).Nodup) :
    ((classifyChildren cd pm reg children).nonSlotChildren =
        children.filter fun c =>
          decide (isValidElement c = true ∧
            routeOf reg c = Route.leftover)) ∧
    (∀ e ∈ reg, e.2.2.multiple = true →
      (classifyChildren cd pm reg children).slotElements.lookup e.1 =
        some (.multi (children.filter fun c =>
          decide (routeOf reg c = Route.toSlot e.1)))) := by
  constructor
  · rw [classify_nonSlot]
    apply List.filter_congr
    intro c _
    by_cases h : routeOf reg c = Route.leftover
    · have hv := ((routeOf_leftover_iff reg c).mp h).1
      simp [h, hv]
    · simp [h]
  · rintro ⟨s, t, cfg⟩ he hm
    exact classify_lookup_multi cd pm reg hnd s t cfg he hm children

theorem classification_stable_witness :
    (classifyChildren true false
        [("Tab", Token.user 0, ⟨false, true, none⟩)]
        [.elem (.user 0) 1, .elem (.user 0) 2,
         .elem (.user 0) 3]).slotElements.lookup "Tab" =
      some (.multi [.elem (.user 0) 1, .elem (.user 0) 2,
        .elem (.user 0) 3]) := by
  have h := classification_stable true false
    [("Tab", Token.user 0, ⟨false, true, none⟩)]
    [.elem (.user 0) 1, .elem (.user 0) 2, .elem (.user 0) 3] (by decide)
  have h2 := h.2 ("Tab", Token.user 0, ⟨false, true, none⟩) (by decide) rfl
  exact h2.trans (by decide)

/-- C5: any child that is not a structured renderable element (plain text,
null, booleans, numbers) is silently dropped: it appears neither in any
slot's stored value nor in the leftover list. The classifier, validator
and adapter are total functions of their inputs, so no input shape makes
them fail. -/
theorem invalid_children_dropped (cd pm : Bool) (reg : Registry)
    (children : List RNode) (c : RNode) (hv : isValidElement c = false) :
    c ∉ (classifyChildren cd pm reg children).nonSlotChildren ∧
    ∀ p ∈ (classifyChildren cd pm reg children).slotElements,
      c ∉ slotValueElems p.2 := by
  constructor
  · rw [classify_nonSlot]
    intro hc
    have h := (List.mem_filter.mp hc).2
    have hroute : routeOf reg c = Route.leftover := by simpa using h
    have hvc := ((routeOf_leftover_iff reg c).mp hroute).1
    rw [hv] at hvc
    cases hvc
  · intro p hp hcp
    have hvalid := fold_values_valid cd pm reg children
      ⟨initSlots reg, [], []⟩ (init_values_valid reg) p hp c hcp
    rw [hv] at hvalid
    cases hvalid

theorem invalid_children_dropped_witness :
    (RNode.text "hi") ∉ (classifyChildren true false
      [("Header", Token.user 0, ⟨false, false, none⟩)]
      [.text "hi", .elem (.user 0) 1]).nonSlotChildren :=
  (invalid_children_dropped true false
    [("Header", Token.user 0, ⟨false, false, none⟩)]
    [.text "hi", .elem (.user 0) 1] (.text "hi") (by decide)).1

/-- C10: each structured child has exactly one destination, determined by
its route: the leftover list holds exactly the children routed to no slot,
each multiple slot's bucket holds exactly the children routed to it (so no
child value sits in two buckets with different routes), and a singular
slot's stored element is either a child routed to that slot or the slot's
untouched initial value. -/
theorem children_partition (cd pm : Bool) (reg : Registry)
    (children : List RNode) (hnd : (reg.map fun e => e.1).Nodup) :
    (∀ c : RNode, isValidElement c = true →
      ((c ∈ (classifyChildren cd pm reg children).nonSlotChildren ↔
          c ∈ children ∧ routeOf reg c = Route.leftover) ∧
        (∀ e ∈ reg, e.2.2.multiple = true →
          ∀ l, (classifyChildren cd pm reg children).slotElements.lookup
              e.1 = some (.multi l) →
            (c ∈ l ↔ c ∈ children ∧
              routeOf reg c = Route.toSlot e.1)))) ∧
    (∀ e ∈ reg, e.2.2.multiple = false →
      ∀ c, (classifyChildren cd pm reg children).slotElements.lookup e.1 =
          some (.single (some c)) →
        routeOf reg c = Route.toSlot e.1 ∨
          SlotValue.single (some c) = initialSlotValue e.2.2) := by
  constructor
  · intro c _
    constructor
    · rw [classify_nonSlot]
      constructor
      · intro hc
        have h := List.mem_filter.mp hc
        exact ⟨h.1, by simpa using h.2⟩
      · intro h
        exact List.mem_filter.mpr ⟨h.1, by simpa using h.2⟩
    · rintro ⟨s, t, cfg⟩ he hm l hl
      have h := classify_lookup_multi cd pm reg hnd s t cfg he hm children
      rw [h] at hl
      simp only [Option.some.injEq, SlotValue.multi.injEq] at hl
      rw [← hl]
      constructor
      · intro hc
        have h2 := List.mem_filter.mp hc
        exact ⟨h2.1, by simpa using h2.2⟩
      · intro h2
        exact List.mem_filter.mpr ⟨h2.1, by simpa using h2.2⟩
  · rintro ⟨s, t, cfg⟩ he hm c hl
    have h := classify_lookup_single cd pm reg hnd s t cfg he hm children
    rw [h] at hl
    simp only [Option.some.injEq, SlotValue.single.injEq] at hl
    cases hg : (children.filter fun x =>
        decide (routeOf reg x = Route.toSlot s)).getLast? with
    | none =>
      rw [hg] at hl
      right
      rw [initialSlotValue_single _ hm, ← hl]
      rfl
    | some x =>
      rw [hg] at hl
      left
      have hcx : c = x := by simpa using hl.symm
      subst hcx
      rcases List.mem_getLast?_eq_getLast (Option.mem_def.mpr hg) with
        ⟨hne, hx⟩
      have hxmem := List.getLast_mem hne
      rw [← hx] at hxmem
      have h2 := List.mem_filter.mp hxmem
      simpa using h2.2

theorem children_partition_witness :
    (RNode.elem (Token.user 9) 0) ∈ (classifyChildren true false
        [("A", Token.user 0, ⟨false, false, none⟩)]
        [.elem (.user 9) 0, .elem (.user 0) 1]).nonSlotChildren ↔
      (RNode.elem (Token.user 9) 0) ∈
          ([.elem (.user 9) 0, .elem (.user 0) 1] : List RNode) ∧
        routeOf [("A", Token.user 0, ⟨false, false, none⟩)]
          (.elem (.user 9) 0) = Route.leftover :=
  ((children_partition true false
      [("A", Token.user 0, ⟨false, false, none⟩)]
      [.elem (.user 9) 0, .elem (.user 0) 1] (by decide)).1
    (.elem (.user 9) 0) (by decide)).1

theorem warnContrib_pos_builder (pm def0 : Bool) (n : Nat) :
    (0 < warnContrib true pm def0 def0 n) ↔
      (pm = false ∧ def0 = false ∧ 2 ≤ n) := by
  cases pm <;> cases def0 <;> simp [warnContrib]
  all_goals omega

theorem warnContrib_pos_legacy (pm def0 : Bool) (n : Nat) :
    (0 < warnContrib false pm def0 def0 n) ↔
      (pm = false ∧ ((def0 = true ∧ 1 ≤ n) ∨ (def0 = false ∧ 2 ≤ n))) := by
  cases pm <;> cases def0 <;> simp [warnContrib]
  all_goals omega

/-- C3 counterexample: in the legacy variant (withSlots.tsx lines 84-98,
which does not test `config.defaultContent`), a singular slot with truthy
default content that receives exactly ONE matching child (N = 1) gets a
duplicate-content diagnostic in development mode — refuting "a diagnostic
is emitted iff N ≥ 2 and no default content pre-existed". -/
theorem singular_warning_legacy_cex :
    ((classifyChildren false false
        [("A", Token.user 0, ⟨false, false, some (.text "d")⟩)]
        [.elem (.user 0) 0]).warnings = ["A"]) ∧
    ((([.elem (.user 0) 0] : List RNode).filter fun c =>
        decide (routeOf
          [("A", Token.user 0, ⟨false, false, some (.text "d")⟩)] c =
            Route.toSlot "A")).length = 1) := by decide

/-- C3 (amended): for a singular slot the final classified value equals the
last matching child in document order whenever one exists, in both
variants. The duplicate-content diagnostic policy is per-variant: the
builder emits it in development mode iff N ≥ 2 and no truthy default
content pre-existed; the legacy variant emits it iff N ≥ 2, or N ≥ 1 with
truthy default content pre-existing. -/
theorem singular_last_wins_warning_policy (cd pm : Bool) (reg : Registry)
    (children : List RNode) (hnd : (reg.map fun e => e.1).Nodup)
    (s : String) (t : Token) (cfg : SlotConfig) (he : (s, t, cfg) ∈ reg)
    (hm : cfg.multiple = false) :
    (∀ c, (children.filter fun x =>
        decide (routeOf reg x = Route.toSlot s)).getLast? = some c →
      (classifyChildren cd pm reg children).slotElements.lookup s =
        some (.single (some c))) ∧
    (cd = true →
      (s ∈ (classifyChildren cd pm reg children).warnings ↔
        pm = false ∧ optTruthy cfg.defaultContent = false ∧
          2 ≤ (children.filter fun x =>
            decide (routeOf reg x = Route.toSlot s)).length)) ∧
    (cd = false →
      (s ∈ (classifyChildren cd pm reg children).warnings ↔
        pm = false ∧
          ((optTruthy cfg.defaultContent = true ∧
              1 ≤ (children.filter fun x =>
                decide (routeOf reg x = Route.toSlot s)).length) ∨
            (optTruthy cfg.defaultContent = false ∧
              2 ≤ (children.filter fun x =>
                decide (routeOf reg x = Route.toSlot s)).length)))) := by
  have hcount := classify_count_warn cd pm reg hnd s t cfg he hm children
  have hmem : s ∈ (classifyChildren cd pm reg children).warnings ↔
      0 < (classifyChildren cd pm reg children).warnings.count s :=
    List.count_pos_iff.symm
  refine ⟨?_, ?_, ?_⟩
  · intro c hg
    have h := classify_lookup_single cd pm reg hnd s t cfg he hm children
    rw [hg] at h
    simpa using h
  · intro hcd
    subst hcd
    rw [hmem, hcount]
    exact warnContrib_pos_builder pm (optTruthy cfg.defaultContent) _
  · intro hcd
    subst hcd
    rw [hmem, hcount]
    exact warnContrib_pos_legacy pm (optTruthy cfg.defaultContent) _

theorem singular_last_wins_warning_policy_witness :
    (classifyChildren true false
        [("A", Token.user 0, ⟨false, false, none⟩)]
        [.elem (.user 0) 1, .elem (.user 0) 2]).slotElements.lookup "A" =
      some (.single (some (.elem (.user 0) 2))) :=
  (singular_last_wins_warning_policy true false
      [("A", Token.user 0, ⟨false, false, none⟩)]
      [.elem (.user 0) 1, .elem (.user 0) 2] (by decide) "A" (.user 0)
      ⟨false, false, none⟩ (by decide) rfl).1
    (.elem (.user 0) 2) (by decide)

/-- C4 counterexample: a MULTIPLE slot configured with default content and
marked required, given no children, is initialized to the empty list (the
default content is ignored for multiple slots) and IS reported as a
missing required slot — refuting both halves of the claim as stated. -/
theorem default_content_multiple_cex :
    (missingRequiredSlots
        [("A", Token.user 0, ⟨true, true, some (.text "d")⟩)]
        (classifyChildren true false
          [("A", Token.user 0, ⟨true, true, some (.text "d")⟩)]
          []).slotElements = ["A"]) ∧
    ((classifyChildren true false
        [("A", Token.user 0, ⟨true, true, some (.text "d")⟩)]
        []).slotElements.lookup "A" = some (.multi [])) := by decide

/-- C4 (amended): for every SINGULAR slot configured with TRUTHY default
content that receives no matching child, the slot's classified value is
the default content wrapped in a fragment, and such a slot is never
reported as a missing required slot (required-ness is checked only against
emptiness, which the default prevents). Multiple-instance slots ignore
default content and can still be reported missing (see counterexample). -/
theorem singular_truthy_default_applied (cd pm : Bool) (reg : Registry)
    (children : List RNode) (hnd : (reg.map fun e => e.1).Nodup)
    (s : String) (t : Token) (cfg : SlotConfig) (he : (s, t, cfg) ∈ reg)
    (hm : cfg.multiple = false) (d : RNode)
    (hd : cfg.defaultContent = some d) (ht : truthy d = true)
    (hno : ∀ c ∈ children, routeOf reg c ≠ Route.toSlot s) :
    ((classifyChildren cd pm reg children).slotElements.lookup s =
        some (.single (some (.frag d)))) ∧
    s ∉ missingRequiredSlots reg
      (classifyChildren cd pm reg children).slotElements := by
  have hfil : (children.filter fun c =>
      decide (routeOf reg c = Route.toSlot s)) = [] :=
    List.filter_eq_nil_iff.mpr fun c hc => by simpa using hno c hc
  have hdef : defaultInit cfg = some (.frag d) := by
    simp [defaultInit, hd, ht]
  have hlook := classify_lookup_single cd pm reg hnd s t cfg he hm children
  rw [hfil] at hlook
  have hlv : (classifyChildren cd pm reg children).slotElements.lookup s =
      some (.single (some (.frag d))) := by
    simpa [hdef] using hlook
  refine ⟨hlv, ?_⟩
  intro hmem
  unfold missingRequiredSlots at hmem
  rcases List.mem_map.mp hmem with ⟨f, hf, hfs⟩
  have hfreg : f ∈ reg := (List.mem_filter.mp hf).1
  have hpred := (List.mem_filter.mp hf).2
  have hfe : f = (s, t, cfg) :=
    reg_name_inj reg hnd f (s, t, cfg) hfreg he hfs
  subst hfe
  rw [hlv] at hpred
  simp [slotIsEmpty, hm] at hpred

theorem singular_truthy_default_applied_witness :
    (classifyChildren true false
        [("Footer", Token.user 1, ⟨false, false, some (.text "c")⟩)]
        [.elem (.user 9) 0]).slotElements.lookup "Footer" =
      some (.single (some (.frag (.text "c")))) :=
  (singular_truthy_default_applied true false
      [("Footer", Token.user 1, ⟨false, false, some (.text "c")⟩)]
      [.elem (.user 9) 0] (by decide) "Footer" (.user 1)
      ⟨false, false, some (.text "c")⟩ (by decide) rfl (.text "c") rfl
      (by decide) (by decide)).1

/-- C9: a configured defaultContent that is falsy (empty string, 0, false,
null) is treated as if no default content were configured: the singular
slot is initialized to null, and if it is also required and receives no
matching child, it is reported as missing. -/
theorem falsy_default_treated_absent (cd pm : Bool) (reg : Registry)
    (children : List RNode) (hnd : (reg.map fun e => e.1).Nodup)
    (s : String) (t : Token) (cfg : SlotConfig) (he : (s, t, cfg) ∈ reg)
    (hm : cfg.multiple = false) (d : RNode)
    (hd : cfg.defaultContent = some d) (ht : truthy d = false)
    (hno : ∀ c ∈ children, routeOf reg c ≠ Route.toSlot s) :
    ((classifyChildren cd pm reg children).slotElements.lookup s =
        some (.single none)) ∧
    (cfg.isRequired = true →
      s ∈ missingRequiredSlots reg
        (classifyChildren cd pm reg children).slotElements) := by
  have hfil : (children.filter fun c =>
      decide (routeOf reg c = Route.toSlot s)) = [] :=
    List.filter_eq_nil_iff.mpr fun c hc => by simpa using hno c hc
  have hdef : defaultInit cfg = none := by
    simp [defaultInit, hd, ht]
  have hlook := classify_lookup_single cd pm reg hnd s t cfg he hm children
  rw [hfil] at hlook
  have hlv : (classifyChildren cd pm reg children).slotElements.lookup s =
      some (.single none) := by
    simpa [hdef] using hlook
  refine ⟨hlv, fun hreq => ?_⟩
  unfold missingRequiredSlots
  apply List.mem_map.mpr
  refine ⟨(s, t, cfg), List.mem_filter.mpr ⟨he, ?_⟩, rfl⟩
  rw [hreq]
  simp [slotIsEmpty, hm, hlv]

theorem falsy_default_treated_absent_witness :
    (classifyChildren true false
        [("A", Token.user 0, ⟨true, false, some (.text "")⟩)]
        []).slotElements.lookup "A" = some (.single none) :=
  (falsy_default_treated_absent true false
      [("A", Token.user 0, ⟨true, false, some (.text "")⟩)]
      [] (by decide) "A" (.user 0) ⟨true, false, some (.text "")⟩
      (by decide) rfl (.text "") rfl (by decide) (by decide)).1

/-- C6 counterexample: the component does not return the render function's
result itself as its output; it returns the result wrapped in one
enclosing fragment (`return <>{render(renderProps)}</>` in both variants),
so at a concrete input the returned node differs from the render result. -/
theorem render_output_fragment_cex :
    ((runComponentBuilder Unit false [] (fun _ => .text "r") ()
        []).output ≠ .text "r") ∧
    ((runComponentBuilder Unit false [] (fun _ => .text "r") ()
        []).output = .frag (.text "r")) := by decide

/-- C6 (amended): on every render pass the adapter builds a single object
merging the properties passed to the component other than its children,
the slots mapping and the leftover list, invokes the caller's render
function with it exactly once, and returns the render function's result
wrapped in one enclosing fragment (which renders no content of its own) as
the component's output; the output depends on the render function only
through its value at that single merged object. -/
theorem render_adapter_contract (P : Type) (pm : Bool)
    (slotsConfig : List (String × BuilderSlotConfig))
    (renderFn renderFn2 : RenderProps P → RNode) (props : P)
    (children : List RNode) :
    ((runComponentBuilder P pm slotsConfig renderFn props children).output =
        .frag (renderFn
          ⟨props,
           (classifyChildren true pm (builderRegistry slotsConfig)
             children).slotElements,
           (classifyChildren true pm (builderRegistry slotsConfig)
             children).nonSlotChildren⟩)) ∧
    ((classifyChildren true pm (builderRegistry slotsConfig)
        children).slotElements.map Prod.fst =
      slotsConfig.map fun p => p.1) ∧
    (renderFn
        ⟨props,
         (classifyChildren true pm (builderRegistry slotsConfig)
           children).slotElements,
         (classifyChildren true pm (builderRegistry slotsConfig)
           children).nonSlotChildren⟩ =
      renderFn2
        ⟨props,
         (classifyChildren true pm (builderRegistry slotsConfig)
           children).slotElements,
         (classifyChildren true pm (builderRegistry slotsConfig)
           children).nonSlotChildren⟩ →
      (runComponentBuilder P pm slotsConfig renderFn props children).output =
        (runComponentBuilder P pm slotsConfig renderFn2 props
          children).output) := by
  refine ⟨rfl, ?_, ?_⟩
  · rw [classify_keys]
    unfold builderRegistry
    rw [List.map_map]
    rfl
  · intro h
    exact congrArg RNode.frag h

theorem render_adapter_contract_witness :
    (runComponentBuilder Unit false
        [("Body", ⟨some (.user 0), false, false, none⟩)]
        (fun _ => .frag (.text "page")) () [.elem (.user 0) 3]).output =
      .frag (.frag (.text "page")) :=
  (render_adapter_contract Unit false
      [("Body", ⟨some (.user 0), false, false, none⟩)]
      (fun _ => .frag (.text "page")) (fun _ => .frag (.text "page")) ()
      [.elem (.user 0) 3]).1.trans (by decide)

/-- C7: after classification the validator produces the ordered (registry
order) list of exactly those slot names that are marked required and ended
up empty — the required slots with no routed child and, for singular
slots, no truthy default content; when that list is non-empty and the
build is not production, exactly one diagnostic carrying the whole list is
emitted; and in every case the render function is still invoked and its
(fragment-wrapped) result returned — the validator never blocks rendering
and never throws. -/
theorem validator_contract (P : Type) (pm : Bool)
    (slotsConfig : List (String × BuilderSlotConfig))
    (renderFn : RenderProps P → RNode) (props : P) (children : List RNode)
    (hnd : (slotsConfig.map fun p => p.1).Nodup) :
    (missingRequiredSlots (builderRegistry slotsConfig)
        (classifyChildren true pm (builderRegistry slotsConfig)
          children).slotElements =
      ((builderRegistry slotsConfig).filter fun e =>
        e.2.2.isRequired &&
          ((children.filter fun c =>
            decide (routeOf (builderRegistry slotsConfig) c =
              Route.toSlot e.1)).isEmpty &&
           (e.2.2.multiple || !optTruthy e.2.2.defaultContent))).map
        fun e => e.1) ∧
    ((runComponentBuilder P pm slotsConfig renderFn props children).errors =
      if 0 < (missingRequiredSlots (builderRegistry slotsConfig)
          (classifyChildren true pm (builderRegistry slotsConfig)
            children).slotElements).length ∧ pm = false
      then [missingRequiredSlots (builderRegistry slotsConfig)
          (classifyChildren true pm (builderRegistry slotsConfig)
            children).slotElements]
      else []) ∧
    ((runComponentBuilder P pm slotsConfig renderFn props children).output =
      .frag (renderFn
        ⟨props,
         (classifyChildren true pm (builderRegistry slotsConfig)
           children).slotElements,
         (classifyChildren true pm (builderRegistry slotsConfig)
           children).nonSlotChildren⟩)) := by
  have hreg : ((builderRegistry slotsConfig).map fun e => e.1).Nodup := by
    unfold builderRegistry
    rw [List.map_map]
    exact hnd
  refine ⟨?_, rfl, rfl⟩
  unfold missingRequiredSlots
  congr 1
  apply List.filter_congr
  rintro ⟨s, t, cfg⟩ he
  by_cases hreq : cfg.isRequired
  · simp only [hreq, Bool.true_and]
    by_cases hm : cfg.multiple
    · rw [classify_lookup_multi true pm _ hreg s t cfg he hm children]
      simp [slotIsEmpty, hm]
    · have hm2 : cfg.multiple = false := by simpa using hm
      rw [classify_lookup_single true pm _ hreg s t cfg he hm2 children]
      cases hg : (children.filter fun c =>
          decide (routeOf (builderRegistry slotsConfig) c =
            Route.toSlot s)).getLast? with
      | none =>
        rw [List.getLast?_eq_none_iff.mp hg]
        have hiso := defaultInit_isSome cfg
        cases hv : defaultInit cfg with
        | none =>
          rw [hv] at hiso
          simp [slotIsEmpty, hm2, ← hiso]
        | some w =>
          rw [hv] at hiso
          simp [slotIsEmpty, hm2, ← hiso]
      | some x =>
        have hne : (children.filter fun c =>
            decide (routeOf (builderRegistry slotsConfig) c =
              Route.toSlot s)) ≠ [] := by
          intro h0
          rw [h0] at hg
          cases hg
        have hie : (children.filter fun c =>
            decide (routeOf (builderRegistry slotsConfig) c =
              Route.toSlot s)).isEmpty = false := by
          cases hcase : (children.filter fun c =>
              decide (routeOf (builderRegistry slotsConfig) c =
                Route.toSlot s)) with
          | nil => exact absurd hcase hne
          | cons y ys => rfl
        simp [slotIsEmpty, hm2, hie]
  · have hreq2 : cfg.isRequired = false := by simpa using hreq
    simp [hreq2]

theorem validator_contract_witness :
    (runComponentBuilder Unit false
        [("Fields", ⟨some (.user 0), true, false, none⟩)]
        (fun _ => .nullNode) () []).errors = [["Fields"]] := by
  have h := validator_contract Unit false
    [("Fields", ⟨some (.user 0), true, false, none⟩)]
    (fun _ => .nullNode) () [] (by decide)
  exact h.2.1.trans (by decide)

/-- C8 counterexample: with identical slot names, identity tokens,
configuration (a singular slot with truthy default content), render
function and children (one matching child), the legacy factory emits a
duplicate-content warning and the builder factory emits none, so the two
variants do not always produce the same diagnostics. -/
theorem variant_warning_divergence_cex :
    ((runComponentLegacy Unit false [("A", Token.user 0)]
        [("A", ⟨false, false, some (.text "d")⟩)] (fun _ => .nullNode) ()
        [.elem (.user 0) 0]).warnings = ["A"]) ∧
    ((runComponentBuilder Unit false
        [("A", ⟨some (.user 0), false, false, some (.text "d")⟩)]
        (fun _ => .nullNode) () [.elem (.user 0) 0]).warnings = []) := by
  decide

/-- C8 (amended): given the same slot names, identity tokens, per-slot
configuration, render function and children, the legacy and the builder
factory produce the same slots mapping, the same leftover list, the same
rendered output and the same missing-required diagnostics; their
duplicate-content warnings also coincide whenever no slot has truthy
default content, but can differ when one does (see the counterexample). -/
theorem variant_equivalence (P : Type) (pm : Bool) (reg : Registry)
    (renderFn : RenderProps P → RNode) (props : P) (children : List RNode)
    (hnd : (reg.map fun e => e.1).Nodup) :
    ((classifyChildren false pm reg children).slotElements =
        (classifyChildren true pm reg children).slotElements) ∧
    ((classifyChildren false pm reg children).nonSlotChildren =
        (classifyChildren true pm reg children).nonSlotChildren) ∧
    ((runComponentLegacy P pm (reg.map fun e => (e.1, e.2.1))
        (reg.map fun e => (e.1, e.2.2)) renderFn props children).output =
      (runComponentBuilder P pm (reg.map fun e =>
          (e.1, ⟨some e.2.1, e.2.2.isRequired, e.2.2.multiple,
            e.2.2.defaultContent⟩)) renderFn props children).output) ∧
    ((runComponentLegacy P pm (reg.map fun e => (e.1, e.2.1))
        (reg.map fun e => (e.1, e.2.2)) renderFn props children).errors =
      (runComponentBuilder P pm (reg.map fun e =>
          (e.1, ⟨some e.2.1, e.2.2.isRequired, e.2.2.multiple,
            e.2.2.defaultContent⟩)) renderFn props children).errors) ∧
    ((∀ e ∈ reg, optTruthy e.2.2.defaultContent = false) →
      (runComponentLegacy P pm (reg.map fun e => (e.1, e.2.1))
          (reg.map fun e => (e.1, e.2.2)) renderFn props
          children).warnings =
        (runComponentBuilder P pm (reg.map fun e =>
            (e.1, ⟨some e.2.1, e.2.2.isRequired, e.2.2.multiple,
              e.2.2.defaultContent⟩)) renderFn props
            children).warnings) := by
  obtain ⟨hse, hns⟩ := classify_cd_irrel false true pm reg children
  have hL := legacyRegistry_proj reg hnd
  have hB := builderRegistry_explicit reg
  refine ⟨hse, hns, ?_, ?_, ?_⟩
  · simp only [runComponentLegacy, runComponentBuilder]
    rw [hL, hB, hse, hns]
  · simp only [runComponentLegacy, runComponentBuilder]
    rw [hL, hB, hse, missing_legacy_eq]
  · intro hdef
    have hcls := classify_no_default_eq pm reg children hdef
    simp only [runComponentLegacy, runComponentBuilder]
    rw [hL, hB, hcls]

theorem variant_equivalence_witness :
    (runComponentLegacy Unit false [("A", Token.user 0)]
        [("A", ⟨true, false, none⟩)] (fun _ => .nullNode) () []).errors =
      (runComponentBuilder Unit false
          [("A", ⟨some (.user 0), true, false, none⟩)]
          (fun _ => .nullNode) () []).errors := by
  have h := variant_equivalence Unit false
    [("A", Token.user 0, ⟨true, false, none⟩)] (fun _ => .nullNode) () []
    (by decide)
  exact h.2.2.2.1

end ReactSlots
